import Mathlib

/-!
# Verification of the distributed background-computation core

A shallow embedding, in Lean 4, of the job-orchestration core of the
FastAPI + Celery repository (backend/app/tasks.py, backend/app/main.py,
backend/app/rate_limiter.py), together with proofs of the testable
properties stated in its design specification.

Conventions:
* Python integers are modelled as `Nat`/`Int` (all quantities involved are
  exact small integers, far below any floating-point precision loss).
* Python floats are modelled as `ℚ` where exact arithmetic is meant.
* The Redis hash `progress:{job_id}` and the key `result:{job_id}` are
  modelled as a record (`RedisJobState` for the typed view used by
  tasks.py, `RawProgressHash` for the string-level view read back by the
  status endpoints in main.py).
* Fallible endpoint handlers return `Except String _`; an `Except.error`
  models a raised exception (HTTPException or an unhandled ValueError).
-/

set_option linter.unusedVariables false

namespace DistComp

/-! ## Chunk partitioning (tasks.py, `start_job`) -/

/-- Model of `math.ceil(n / d)` for positive integers `d`, as used by
`chunk_size = math.ceil(n / total_chunks)` in `start_job`
(tasks.py line 98).  For `1 ≤ d` this equals the ceiling of `n / d`. -/
def ceilDiv (n d : Nat) : Nat := (n + d - 1) / d

/-- The chunk-building loop of `start_job` (tasks.py lines 99-107):

    start_value = 1
    for index in range(total_chunks):
        end_value = min(n, start_value + chunk_size - 1)
        subtasks.append(compute_chunk.s(job_id, index, start_value, end_value))
        start_value = end_value + 1
        if start_value > n:
            break

The first argument of the pair is the chunk's `start`, the second its
`end` (both inclusive).  `fuel` is the number of remaining loop
iterations (`total_chunks - index`). -/
def chunkLoop (n chunkSize : Nat) : Nat → Nat → List (Nat × Nat)
  | 0, _ => []
  | fuel + 1, startValue =>
      let endValue := min n (startValue + chunkSize - 1)
      (startValue, endValue) ::
        (if n < endValue + 1 then []
         else chunkLoop n chunkSize fuel (endValue + 1))

/-- Model of `total_chunks = max(1, min(requested_chunks, n))` (tasks.py line 83). -/
def total_chunks (requested_chunks n : Nat) : Nat := max 1 (min requested_chunks n)

/-- The list of `(start, end)` ranges of the chunk tasks scheduled by
`start_job(job_id, n, requested_chunks)` (tasks.py lines 83, 98-107). -/
def start_job_chunks (n requested_chunks : Nat) : List (Nat × Nat) :=
  chunkLoop n (ceilDiv n (total_chunks requested_chunks n)) (total_chunks requested_chunks n) 1

/-! ## Job state in Redis (tasks.py) -/

/-- Typed view of the Redis hash `progress:{job_id}` together with the
key `result:{job_id}`, as read and written by the Celery tasks in
tasks.py.  The tasks always store integer-valued strings under
`total_chunks` / `completed_chunks` and parse them back with `int(...)`,
so this view keeps those two fields as integers; `total_chunks = none`
models an absent hash field (`hget` returning `None`), and
`result = none` models an absent `result:{job_id}` key. -/
structure RedisJobState where
  status : String
  total_chunks : Option Int
  completed_chunks : Int
  progress : String
  detail : String
  result : Option Int
deriving DecidableEq

/-- Model of `_mark_failed(job_id, detail)` (tasks.py lines 48-65): write
status `failed` and the detail message, delete the result key. -/
def mark_failed (detail : String) (s : RedisJobState) : RedisJobState :=
  { s with status := "failed", detail := detail, result := none }

/-- The hash written by `start_job` before any chunk is dispatched
(tasks.py lines 86-96); the result key is deleted at the same time. -/
def start_job_state (n requested_chunks : Nat) : RedisJobState :=
  { status := "pending"
    total_chunks := some (total_chunks requested_chunks n : Int)
    completed_chunks := 0
    progress := "0.0"
    detail := "Job accepted and waiting for workers."
    result := none }

/-- Model of `subtotal = sum(range(start, end + 1))` (tasks.py line 132). -/
def rangeSum (start endv : Nat) : Nat := (List.range' start (endv + 1 - start)).sum

/-- The per-chunk subtotals of the chunks scheduled by `start_job`. -/
def chunkResults (n requested_chunks : Nat) : List Int :=
  (start_job_chunks n requested_chunks).map (fun c => (rangeSum c.1 c.2 : Int))

/-- The f-string `f"{progress:.4f}"` (tasks.py line 143): the progress
value rendered with four digits after the decimal point.  The half-way
rounding mode of Python's float formatting is modelled with `round`; no
claim depends on the digits of this string. -/
def format4 (q : ℚ) : String :=
  let scaled : Int := round (q * 10000)
  let ip := scaled / 10000
  let fp := (scaled % 10000).toNat
  let digits := toString fp
  toString ip ++ "." ++ String.mk (List.replicate (4 - digits.length) '0') ++ digits

/-- Model of `finalize_job(results, job_id)` (tasks.py lines 205-245), Redis
effects only: the Supabase mirror write (lines 226-242) is an optional
external collaborator wrapped in try/except.  Returns the task's return
value together with the updated Redis state. -/
def finalize_job (results : List Int) (s : RedisJobState) : Int × RedisJobState :=
  let total : Int := results.sum
  let total_chunks_raw : Int :=
    match s.total_chunks with
    | some t => t
    | none => (results.length : Int)
  (total,
    { s with
      status := "completed"
      progress := "1.0"
      completed_chunks := total_chunks_raw
      detail := "Computation finished successfully."
      result := some total })

/-- Outcome of executing the body of one `compute_chunk` attempt:
`success` for the normal path, `softTimeLimit` for Celery raising
`SoftTimeLimitExceeded`, `failure msg` for any other exception with
message `msg` (tasks.py lines 125-202). -/
inductive ChunkOutcome where
  | success
  | softTimeLimit
  | failure (msg : String)

/-- Result of one `compute_chunk` run: the returned subtotal, a
scheduled retry (`raise self.retry(...)`), or a permanent failure that
marked the whole job failed. -/
inductive ChunkResult where
  | value (subtotal : Int) (s : RedisJobState)
  | retryScheduled (s : RedisJobState)
  | jobFailed (s : RedisJobState)
deriving DecidableEq

/-- The `max_retries=2` setting on the `compute_chunk` decorator (tasks.py line 125). -/
def maxRetries : Nat := 2

/-- Model of `compute_chunk(job_id, chunk_index, start, end)` (tasks.py lines
125-202), Redis effects only: the Supabase mirror update (lines 148-169)
is wrapped in try/except and non-critical.  `retries` is
`self.request.retries`, the number of times this delivery has already
been retried. -/
def compute_chunk (chunk_index : Nat) (start endv : Nat) (retries : Nat)
    (outcome : ChunkOutcome) (s : RedisJobState) : ChunkResult :=
  match outcome with
  | .success =>
      let subtotal : Int := (rangeSum start endv : Int)
      let completed := s.completed_chunks + 1
      let total := max (s.total_chunks.getD 1) 1
      let progress : ℚ := min 1 ((completed : ℚ) / (total : ℚ))
      .value subtotal
        { s with
          completed_chunks := completed
          status := "running"
          progress := format4 progress
          detail := "Processed chunk " ++ toString (chunk_index + 1)
            ++ " of " ++ toString total ++ "." }
  | .softTimeLimit =>
      .jobFailed (mark_failed
        ("Chunk " ++ toString (chunk_index + 1) ++ " exceeded time limit (5 minutes)") s)
  | .failure msg =>
      if retries < maxRetries then
        .retryScheduled s
      else
        .jobFailed (mark_failed
          ("Chunk " ++ toString (chunk_index + 1) ++ " failed after "
            ++ toString maxRetries ++ " retries: " ++ msg) s)

/-- One Redis mutation applied to a job's state by `compute_chunk` or
`finalize_job`:
* `incr`   — the atomic `hincrby(progress_key, "completed_chunks", 1)`
  (tasks.py line 135);
* `setRunning` — the `hset` of status/progress/detail that follows it
  (tasks.py lines 139-146);
* `markFailed` — `_mark_failed` (tasks.py lines 48-65), reached from any
  of `compute_chunk`'s failure paths;
* `finalize` — the terminal write of `finalize_job` (tasks.py lines
  213-224). -/
inductive TaskStep : RedisJobState → RedisJobState → Prop
  | incr (s : RedisJobState) :
      TaskStep s { s with completed_chunks := s.completed_chunks + 1 }
  | setRunning (s : RedisJobState) (progressStr detailStr : String) :
      TaskStep s
        { s with status := "running", progress := progressStr, detail := detailStr }
  | markFailed (s : RedisJobState) (detailStr : String) :
      TaskStep s (mark_failed detailStr s)
  | finalize (s : RedisJobState) (results : List Int) :
      TaskStep s (finalize_job results s).2

/-- A sequence of task mutations along which every state reached still
has status `pending` or `running` — the situation of two successive
status reads of a not-yet-terminal job. -/
inductive ActiveTrace : RedisJobState → RedisJobState → Prop
  | refl (s : RedisJobState) : ActiveTrace s s
  | step {s t u : RedisJobState} (h : TaskStep s t)
      (ht : t.status = "pending" ∨ t.status = "running")
      (rest : ActiveTrace t u) : ActiveTrace s u

/-! ## Job submission API (main.py) -/

/-- The `JobCreated` response schema (schemas.py lines 16-20). -/
structure JobCreated where
  job_id : String
  status : String
  cached : Bool := false
  result : Option Int := none
deriving DecidableEq

/-- Lookup in an association-list model of a set of Redis string keys. -/
def lookupStore {α : Type} (k : String) (l : List (String × α)) : Option α :=
  (l.find? (fun p => p.1 == k)).map (fun p => p.2)

/-- The Redis state touched by the submission endpoints: the
`idempotency:{key}` records (each written with a 24-hour `setex`,
main.py lines 271-277 — the list models the records whose retention
window has not yet expired) and the `progress:{job_id}` hashes. -/
structure ApiState where
  idempotency : List (String × JobCreated)
  progress : List (String × RedisJobState)
deriving DecidableEq

/-- The initial `progress:{job_id}` hash written by `create_job` /
`create_demo_job` before dispatching the Celery task (main.py lines
254-263 and 650-659). -/
def initial_progress (chunks : Int) (detail : String) : RedisJobState :=
  { status := "pending"
    total_chunks := some chunks
    completed_chunks := 0
    progress := "0.0"
    detail := detail
    result := none }

/-- Model of `create_job` (main.py lines 142-279), Redis path: the Supabase
branch (lines 187-246) requires the optional external collaborator plus
an authenticated user and is skipped in the Redis-only reference
deployment.  `newJobId` stands for the freshly drawn `uuid.uuid4()`.
An `Except.error` models a raised `HTTPException` (status 400); the
second component is the Redis state after the call. -/
def create_job (maxN maxChunks : Int) (n chunks : Int) (idemKey : Option String)
    (newJobId : String) (st : ApiState) :
    Except String JobCreated × ApiState :=
  if n ≤ 0 ∨ maxN < n then
    (.error "n must be between 1 and max_job_n", st)
  else if chunks ≤ 0 ∨ maxChunks < chunks then
    (.error "chunks must be between 1 and max_chunks", st)
  else
    match idemKey with
    | some key =>
        match lookupStore ("idempotency:" ++ key) st.idempotency with
        | some cached => (.ok cached, st)
        | none =>
            let response : JobCreated := { job_id := newJobId, status := "pending" }
            (.ok response,
              { idempotency := ("idempotency:" ++ key, response) :: st.idempotency
                progress := ("progress:" ++ newJobId,
                  initial_progress chunks "Job queued and waiting for workers.")
                    :: st.progress })
    | none =>
        let response : JobCreated := { job_id := newJobId, status := "pending" }
        (.ok response,
          { st with progress := ("progress:" ++ newJobId,
              initial_progress chunks "Job queued and waiting for workers.")
                :: st.progress })

/-- Model of `create_demo_job` (main.py lines 621-663): hard-coded demo bounds
`1 ≤ n ≤ 10000`, `1 ≤ chunks ≤ 8`; validation happens before any state
is touched. -/
def create_demo_job (n chunks : Int) (newJobId : String) (st : ApiState) :
    Except String JobCreated × ApiState :=
  if n ≤ 0 ∨ 10000 < n then
    (.error "Demo: n must be between 1 and 10,000", st)
  else if chunks ≤ 0 ∨ 8 < chunks then
    (.error "Demo: chunks must be between 1 and 8", st)
  else
    (.ok { job_id := newJobId, status := "pending" },
      { st with progress := ("progress:" ++ newJobId,
          initial_progress chunks "Demo job queued.") :: st.progress })

/-- A previously returned job-creation response, recorded under the
deduplication key `alpha`. -/
def priorResponse : JobCreated := { job_id := "job-1", status := "pending" }

/-- A Redis state holding the recorded response for key `alpha`. -/
def storeWithPrior : ApiState :=
  { idempotency := [("idempotency:alpha", priorResponse)], progress := [] }

/-! ## Status endpoint (main.py, `get_job_status` / `get_demo_job_status`)

main.py reads the progress hash back as raw strings and re-parses them,
so this part of the model works at the string level. -/

/-- Value of a decimal digit character. -/
def digitVal (c : Char) : Option Nat :=
  if c.isDigit then some (c.toNat - 48) else none

/-- Parse a non-empty all-digit character list. -/
def parseDigits (l : List Char) : Option Nat :=
  if l.isEmpty then none
  else l.foldl (fun acc c =>
    match acc, digitVal c with
    | some a, some d => some (a * 10 + d)
    | _, _ => none) (some 0)

/-- Python `int(str)`: optional sign and decimal digits; anything else
raises `ValueError`, modelled as `none`.  (Surrounding whitespace and
underscore digit separators, which Python would also accept, never occur
in this system's stored values — they are produced by `str(int)` — and
are not modelled.) -/
def pyInt (s : String) : Option Int :=
  match s.toList with
  | '+' :: rest => (parseDigits rest).map (fun v => (v : Int))
  | '-' :: rest => (parseDigits rest).map (fun v => -(v : Int))
  | l => (parseDigits l).map (fun v => (v : Int))

/-- Mantissa of a float literal: `digits`, `digits.digits`, `digits.`
or `.digits`. -/
def parseMantissa (l : List Char) : Option ℚ :=
  match l.splitOn '.' with
  | [ip] => (parseDigits ip).map (fun v => (v : ℚ))
  | [ip, fp] =>
      if ip.isEmpty && fp.isEmpty then none
      else
        match (if ip.isEmpty then some 0 else parseDigits ip),
              (if fp.isEmpty then some 0 else parseDigits fp) with
        | some i, some f => some ((i : ℚ) + (f : ℚ) / (10 : ℚ) ^ fp.length)
        | _, _ => none
  | _ => none

/-- Signed integer exponent of a float literal. -/
def parseExponent (l : List Char) : Option Int :=
  match l with
  | '+' :: rest => (parseDigits rest).map (fun v => (v : Int))
  | '-' :: rest => (parseDigits rest).map (fun v => -(v : Int))
  | _ => (parseDigits l).map (fun v => (v : Int))

/-- Unsigned part of a float literal: mantissa with optional exponent. -/
def parseFloatBody (l : List Char) : Option ℚ :=
  match l.splitOn 'e' with
  | [m] => parseMantissa m
  | [m, ex] =>
      match parseMantissa m, parseExponent ex with
      | some q, some e => some (q * (10 : ℚ) ^ e)
      | _, _ => none
  | _ => none

/-- Python `float(str)`: optional sign, decimal mantissa, optional
`e`/`E` exponent; anything else raises `ValueError`, modelled as `none`.
(Surrounding whitespace, `inf`/`nan` literals and underscore separators,
which Python would also accept, never occur in this system's stored
values and are not modelled.) -/
def pyFloat (s : String) : Option ℚ :=
  match (s.toList.map Char.toLower) with
  | '+' :: rest => parseFloatBody rest
  | '-' :: rest => (parseFloatBody rest).map (fun q => -q)
  | l => parseFloatBody l

/-- String-level view of the Redis hash `progress:{job_id}` as read back
by `hgetall` in the status endpoints; a `none` field is an absent hash
key. -/
structure RawProgressHash where
  status : Option String
  total_chunks : Option String
  completed_chunks : Option String
  progress : Option String
  detail : Option String
deriving DecidableEq

/-- The `JobStatus` response fields produced by the status endpoints
(schemas.py lines 23-38; the timing fields, always `None` on this code
path, are omitted). -/
structure JobStatusResp where
  job_id : String
  status : String
  progress : ℚ
  completed_chunks : Int
  total_chunks : Int
  result : Option Int
  detail : Option String
deriving DecidableEq

/-- Model of `progress_value = progress_raw.get("progress", "0") or "0"`
(main.py lines 309 and 687): a missing or empty (falsy) field becomes
`"0"`. -/
def progressValueOf (raw : RawProgressHash) : String :=
  match raw.progress with
  | some s => if s = "" then "0" else s
  | none => "0"

/-- Model of `get_job_status` / `get_demo_job_status` (main.py lines 288-330 and
672-708; the two handler bodies are identical).  `h = none` models a
missing `progress:{job_id}` key (404); `result_raw` is the value of
`result:{job_id}`.  An `Except.error` models a raised exception: the
404 `HTTPException` for a missing job, or an uncaught `ValueError`
escaping from `int(...)` (which surfaces as a server error, not a
well-formed `JobStatus` response). -/
def get_job_status (job_id : String) :
    Option RawProgressHash → Option String → Except String JobStatusResp
  | none, _ => .error "404: Job not found."
  | some raw, result_raw =>
      match pyInt (raw.total_chunks.getD "1") with
      | none => .error "ValueError: invalid total_chunks"
      | some total_chunks =>
          match pyInt (raw.completed_chunks.getD "0") with
          | none => .error "ValueError: invalid completed_chunks"
          | some completed_chunks =>
              let progress_float : ℚ := (pyFloat (progressValueOf raw)).getD 0
              match (match result_raw with
                     | none => Except.ok none
                     | some r =>
                         match pyInt r with
                         | none => Except.error "ValueError: invalid result"
                         | some v => Except.ok (some v) :
                       Except String (Option Int)) with
              | .error e => .error e
              | .ok result_value =>
                  .ok { job_id := job_id
                        status := raw.status.getD "unknown"
                        progress := min (max progress_float 0) 1
                        completed_chunks := completed_chunks
                        total_chunks := if 0 < total_chunks then total_chunks else 1
                        result := result_value
                        detail := raw.detail }

/-- A stored progress record whose `total_chunks` field is not numeric. -/
def rawBadTotal : RawProgressHash :=
  { status := some "running", total_chunks := some "many",
    completed_chunks := some "0", progress := some "0.5", detail := none }

/-- A stored progress record with `total_chunks = "0"` and an
unparseable progress string. -/
def rawOdd : RawProgressHash :=
  { status := some "running", total_chunks := some "0",
    completed_chunks := some "2", progress := some "garbage",
    detail := some "d" }

/-! ## SSE event stream (main.py, `stream_job_events`) -/

/-- The observable fields of the per-iteration `status_update` dict
built by the SSE polling loop (main.py lines 485-493); `job_id` is
constant over one stream and omitted from the comparison record. -/
structure StatusUpdate where
  status : String
  progress : ℚ
  completed_chunks : Int
  total_chunks : Int
  result : Option Int
  detail : Option String
deriving DecidableEq

/-- The events the SSE generator can emit (main.py lines 460, 497, 502,
510). -/
inductive SseEvent where
  | error
  | status (u : StatusUpdate)
  | done (statusValue : String)
  | timeout
deriving DecidableEq

/-- Model of `status_value in ["completed", "failed", "cancelled"]`
(main.py line 501). -/
def isTerminal (s : String) : Bool :=
  s == "completed" || s == "failed" || s == "cancelled"

/-- The polling loop of `event_generator` (main.py lines 463-510).
`obs i` is the parsed result of the `hgetall`/`get` reads of iteration
`i`, with `none` for an empty hash (an expired or deleted job key);
`fuel = max_iterations - iteration` counts the remaining iterations, so
at `fuel = 0` the `while` guard fails with `iteration ≥ max_iterations`
and the post-loop timeout event is emitted.  A `none` observation
reproduces the bare `break` of lines 470-471: the loop ends with no
further event, and since `iteration < max_iterations` there, without a
timeout event.  When no status event is emitted the code leaves `last`
unchanged; in that branch `some u = last`, so uniformly passing `some u`
as the next `last` coincides with the code. -/
def event_generator_loop (obs : Nat → Option StatusUpdate) :
    Nat → Option StatusUpdate → Nat → List SseEvent
  | 0, _, _ => [SseEvent.timeout]
  | fuel + 1, last, iteration =>
      match obs iteration with
      | none => []
      | some u =>
          let emitted : List SseEvent :=
            if some u ≠ last then [SseEvent.status u] else []
          if isTerminal u.status then
            emitted ++ [SseEvent.done u.status]
          else
            emitted ++ event_generator_loop obs fuel (some u) (iteration + 1)

/-- The constant `max_iterations = 300` (main.py line 464). -/
def maxIterations : Nat := 300

/-- Model of `event_generator` (main.py lines 452-510): the initial existence
check (error event for an unknown job), then the polling loop starting
with `last_status = None` and `iteration = 0`. -/
def event_generator (jobExists : Bool) (obs : Nat → Option StatusUpdate) :
    List SseEvent :=
  if jobExists then event_generator_loop obs maxIterations none 0
  else [SseEvent.error]

/-- The payloads of the `status` events of an event list, in order. -/
def statusPayloads (es : List SseEvent) : List StatusUpdate :=
  es.filterMap (fun e =>
    match e with
    | SseEvent.status u => some u
    | _ => none)

/-- An observation sequence in which the stored job state has been
deleted (expired) before the first poll, so the job is never observed
with a terminal status. -/
def vanishedObs : Nat → Option StatusUpdate := fun _ => none

/-- A stream whose first poll already observes a completed job. -/
def doneObs : Nat → Option StatusUpdate := fun _ =>
  some { status := "completed", progress := 1, completed_chunks := 3,
         total_chunks := 3, result := some 55, detail := none }

/-- A stream that observes a running, never-terminal job forever. -/
def pendingObs : Nat → Option StatusUpdate := fun _ =>
  some { status := "running", progress := 0, completed_chunks := 0,
         total_chunks := 3, result := none, detail := none }

/-! ## Token-bucket rate limiter (rate_limiter.py) -/

/-- Model of `TokenBucket` (rate_limiter.py lines 16-22).  Wall-clock instants
and token counts are exact rationals. -/
structure TokenBucket where
  capacity : ℚ
  tokens : ℚ
  refill_rate : ℚ
  last_refill : ℚ
deriving DecidableEq

/-- Model of `_refill` (rate_limiter.py lines 41-46) at wall-clock time `now`:
`tokens = min(capacity, tokens + elapsed * refill_rate)`. -/
def TokenBucket.refill (b : TokenBucket) (now : ℚ) : TokenBucket :=
  { b with
    tokens := min b.capacity (b.tokens + (now - b.last_refill) * b.refill_rate)
    last_refill := now }

/-- Model of `consume(tokens)` (rate_limiter.py lines 24-39) at wall-clock time
`now`: refill lazily, then admit and decrement if enough tokens. -/
def TokenBucket.consume (b : TokenBucket) (now : ℚ) (t : ℚ) : Bool × TokenBucket :=
  let b2 := b.refill now
  if t ≤ b2.tokens then (true, { b2 with tokens := b2.tokens - t })
  else (false, b2)

/-- Model of `time_until_available(tokens)` (rate_limiter.py lines 48-64) at
wall-clock time `now`: `(tokens - self.tokens) / refill_rate` when short. -/
def TokenBucket.time_until_available (b : TokenBucket) (now : ℚ) (t : ℚ) :
    ℚ × TokenBucket :=
  let b2 := b.refill now
  if t ≤ b2.tokens then (0, b2)
  else ((t - b2.tokens) / b2.refill_rate, b2)

/-- A fresh bucket as created by `check_rate_limit` (rate_limiter.py
lines 112-117) for a limiter with capacity 5 per 60-second window
(`refill_rate = 5 / 60` tokens per second), created at time 0. -/
def demoBucket : TokenBucket :=
  { capacity := 5, tokens := 5, refill_rate := 5 / 60, last_refill := 0 }

/-- Sequence of `k` consecutive `consume(1)` calls at time `now`, returning the
outcomes in order together with the final bucket. -/
def consumeSeq (now : ℚ) : Nat → TokenBucket → List Bool × TokenBucket
  | 0, b => ([], b)
  | k + 1, b =>
      let r := b.consume now 1
      let rest := consumeSeq now k r.2
      (r.1 :: rest.1, rest.2)

theorem chunkLoop_succ (n cs fuel s : Nat) :
    chunkLoop n cs (fuel + 1) s =
      (s, min n (s + cs - 1)) ::
        (if n < min n (s + cs - 1) + 1 then []
         else chunkLoop n cs fuel (min n (s + cs - 1) + 1)) := rfl

theorem lt_div_mul_add_self (a b : Nat) (hb : 0 < b) : a < a / b * b + b := by
  conv_lhs => rw [← Nat.div_add_mod a b]
  rw [Nat.mul_comm]
  exact Nat.add_lt_add_left (Nat.mod_lt _ hb) _

theorem ceilDiv_eq_succ (n d : Nat) (hn : 1 ≤ n) (hd : 0 < d) :
    ceilDiv n d = (n - 1) / d + 1 := by
  unfold ceilDiv
  have h : n + d - 1 = (n - 1) + d := by omega
  rw [h, Nat.add_div_right _ hd]

/-- The product `total_chunks * chunk_size` is enough to cover `[1, n]`. -/
theorem le_mul_ceilDiv (n d : Nat) (hd : 0 < d) : n ≤ d * ceilDiv n d := by
  rcases Nat.eq_zero_or_pos n with h0 | h0
  · subst h0; exact Nat.zero_le _
  · rw [ceilDiv_eq_succ n d h0 hd, Nat.mul_comm, Nat.add_mul, Nat.one_mul]
    have h1 : n - 1 < (n - 1) / d * d + d := lt_div_mul_add_self (n - 1) d hd
    have h2 : (n - 1) + 1 ≤ (n - 1) / d * d + d := Nat.succ_le_of_lt h1
    have h3 : (n - 1) + 1 = n := Nat.succ_pred_eq_of_pos h0
    rw [h3] at h2
    exact h2

theorem one_le_ceilDiv (n d : Nat) (hn : 1 ≤ n) (hd : 0 < d) :
    1 ≤ ceilDiv n d := by
  rw [ceilDiv_eq_succ n d hn hd]
  exact Nat.le_add_left 1 _

/-- Every chunk the loop creates starts at or after the running start
value, is non-empty, and ends within `[1, n]`. -/
theorem chunkLoop_mem_bounds (n cs : Nat) (hcs : 1 ≤ cs) :
    ∀ (fuel s : Nat), s ≤ n →
      ∀ c ∈ chunkLoop n cs fuel s, s ≤ c.1 ∧ c.1 ≤ c.2 ∧ c.2 ≤ n := by
  intro fuel
  induction fuel with
  | zero => intro s hs c hc; simp [chunkLoop] at hc
  | succ k ih =>
      intro s hs c hc
      rw [chunkLoop_succ] at hc
      rcases List.mem_cons.mp hc with h | h
      · subst h
        refine ⟨Nat.le_refl s, ?_, ?_⟩
        · simp only
          omega
        · simp only
          omega
      · by_cases hbr : n < min n (s + cs - 1) + 1
        · rw [if_pos hbr] at h
          simp at h
        · rw [if_neg hbr] at h
          have h2 := ih (min n (s + cs - 1) + 1) (by omega) c h
          refine ⟨by omega, h2.2⟩

/-- Index formula for the chunk list: chunk `i` (0-based) covers
`[s + i*cs, min n (s + i*cs + cs - 1)]`. -/
theorem chunkLoop_getElem (n cs : Nat) (hcs : 1 ≤ cs) :
    ∀ (fuel s i : Nat), s ≤ n → i < (chunkLoop n cs fuel s).length →
      (chunkLoop n cs fuel s)[i]? =
        some (s + i * cs, min n (s + i * cs + cs - 1)) := by
  intro fuel
  induction fuel with
  | zero => intro s i hs hlen; simp [chunkLoop] at hlen
  | succ k ih =>
      intro s i hs hlen
      match i with
      | 0 =>
          rw [chunkLoop_succ, List.getElem?_cons_zero]
          simp
      | i + 1 =>
          by_cases hbr : n < min n (s + cs - 1) + 1
          · exfalso
            rw [chunkLoop_succ, if_pos hbr] at hlen
            simp at hlen
          · have he : min n (s + cs - 1) = s + cs - 1 := by omega
            rw [chunkLoop_succ, if_neg hbr, List.getElem?_cons_succ]
            have hlen' : i < (chunkLoop n cs k (min n (s + cs - 1) + 1)).length := by
              rw [chunkLoop_succ, if_neg hbr, List.length_cons] at hlen
              omega
            have hs' : min n (s + cs - 1) + 1 ≤ n := by omega
            have := ih (min n (s + cs - 1) + 1) i hs' hlen'
            rw [this, he]
            have h1 : s + cs - 1 + 1 = s + cs := by omega
            rw [h1]
            have h2 : s + cs + i * cs = s + (i + 1) * cs := by ring
            rw [h2]

/-- Every point of `[s, n]` is covered by exactly one chunk, provided the
remaining fuel suffices to reach `n`. -/
theorem chunkLoop_cover (n cs : Nat) (hcs : 1 ≤ cs) :
    ∀ (fuel s m : Nat), s ≤ n → n + 1 ≤ s + fuel * cs → s ≤ m → m ≤ n →
      (chunkLoop n cs fuel s).countP (fun c => decide (c.1 ≤ m ∧ m ≤ c.2)) = 1 := by
  intro fuel
  induction fuel with
  | zero =>
      intro s m hs hk hm1 hm2
      exfalso
      omega
  | succ k ih =>
      intro s m hs hk hm1 hm2
      have hmul : (k + 1) * cs = k * cs + cs := Nat.succ_mul k cs
      rw [hmul] at hk
      rw [chunkLoop_succ]
      by_cases hbr : n < min n (s + cs - 1) + 1
      · rw [if_pos hbr]
        simp only [List.countP_cons, List.countP_nil, decide_eq_true_eq]
        rw [if_pos (show (s, min n (s + cs - 1)).1 ≤ m ∧ m ≤ (s, min n (s + cs - 1)).2
          from ⟨hm1, show m ≤ min n (s + cs - 1) by omega⟩)]
      · rw [if_neg hbr]
        have he : min n (s + cs - 1) = s + cs - 1 := by omega
        simp only [List.countP_cons, decide_eq_true_eq]
        by_cases hcov : m ≤ min n (s + cs - 1)
        · -- the head chunk covers m; no later chunk can
          have hz : (chunkLoop n cs k (min n (s + cs - 1) + 1)).countP
              (fun c => decide (c.1 ≤ m ∧ m ≤ c.2)) = 0 := by
            rw [List.countP_eq_zero]
            intro c hc
            have hb := chunkLoop_mem_bounds n cs hcs k (min n (s + cs - 1) + 1)
              (by omega) c hc
            simp only [decide_eq_true_eq]
            omega
          rw [hz, if_pos (show (s, min n (s + cs - 1)).1 ≤ m ∧ m ≤ (s, min n (s + cs - 1)).2
            from ⟨hm1, hcov⟩)]
        · -- m lies beyond the head chunk; recurse
          rw [if_neg (show ¬((s, min n (s + cs - 1)).1 ≤ m ∧ m ≤ (s, min n (s + cs - 1)).2)
            from fun hx => hcov hx.2)]
          have hrec := ih (min n (s + cs - 1) + 1) m (by omega)
            (by omega) (by omega) hm2
          rw [hrec]

/-- C1 (chunk ranges partition `[1, n]`).  For every valid input
(`1 ≤ n`, `1 ≤ requested_chunks`) the chunk ranges created by
`start_job` satisfy, with `cs = ceil(n / effectiveChunks)`:
chunk `i` covers exactly `[i*cs + 1, min n ((i+1)*cs)]`; every integer of
`[1, n]` lies in exactly one created chunk's range; and no created chunk
has an empty range. -/
theorem chunk_ranges_partition (n requested_chunks : Nat)
    (hn : 1 ≤ n) (hr : 1 ≤ requested_chunks) :
    (∀ i, i < (start_job_chunks n requested_chunks).length →
        (start_job_chunks n requested_chunks)[i]? =
          some (i * ceilDiv n (total_chunks requested_chunks n) + 1,
                min n ((i + 1) * ceilDiv n (total_chunks requested_chunks n))))
    ∧ (∀ m, 1 ≤ m → m ≤ n →
        (start_job_chunks n requested_chunks).countP
          (fun c => decide (c.1 ≤ m ∧ m ≤ c.2)) = 1)
    ∧ (∀ c ∈ start_job_chunks n requested_chunks, c.1 ≤ c.2) := by
  have ht : 1 ≤ total_chunks requested_chunks n := le_max_left _ _
  have hcs : 1 ≤ ceilDiv n (total_chunks requested_chunks n) :=
    one_le_ceilDiv n _ hn ht
  refine ⟨?_, ?_, ?_⟩
  · intro i hi
    have hg := chunkLoop_getElem n (ceilDiv n (total_chunks requested_chunks n)) hcs
      (total_chunks requested_chunks n) 1 i hn hi
    rw [start_job_chunks, hg]
    have h1 : 1 + i * ceilDiv n (total_chunks requested_chunks n)
        = i * ceilDiv n (total_chunks requested_chunks n) + 1 := by ring
    rw [h1]
    have h2 : i * ceilDiv n (total_chunks requested_chunks n) + 1
          + ceilDiv n (total_chunks requested_chunks n) - 1
        = (i + 1) * ceilDiv n (total_chunks requested_chunks n) := by
      have h3 : (i + 1) * ceilDiv n (total_chunks requested_chunks n)
          = i * ceilDiv n (total_chunks requested_chunks n)
            + ceilDiv n (total_chunks requested_chunks n) := by ring
      omega
    rw [h2]
  · intro m hm1 hm2
    have hfuel : n + 1 ≤ 1 + (total_chunks requested_chunks n)
        * ceilDiv n (total_chunks requested_chunks n) := by
      have := le_mul_ceilDiv n (total_chunks requested_chunks n) ht
      omega
    exact chunkLoop_cover n _ hcs (total_chunks requested_chunks n) 1 m hn hfuel hm1 hm2
  · intro c hc
    exact (chunkLoop_mem_bounds n _ hcs (total_chunks requested_chunks n) 1 hn c hc).2.1

/-- Witness for `chunk_ranges_partition` at `n = 10`, `requested_chunks = 3`,
`m = 7`: the point 7 lies in exactly one chunk range, and every created
chunk is non-empty. -/
theorem chunk_ranges_partition_witness :
    (start_job_chunks 10 3).countP (fun c => decide (c.1 ≤ 7 ∧ 7 ≤ c.2)) = 1 :=
  (chunk_ranges_partition 10 3 (by decide) (by decide)).2.1 7 (by decide) (by decide)

/-- Length of the chunk list: `ceil((n + 1 - s) / cs)` chunks are needed
to cover `[s, n]`, provided the fuel suffices. -/
theorem chunkLoop_length (n cs : Nat) (hcs : 1 ≤ cs) :
    ∀ (fuel s : Nat), s ≤ n → n + 1 ≤ s + fuel * cs →
      (chunkLoop n cs fuel s).length = ceilDiv (n + 1 - s) cs := by
  intro fuel
  induction fuel with
  | zero =>
      intro s hs hk
      exfalso
      omega
  | succ k ih =>
      intro s hs hk
      have hmul : (k + 1) * cs = k * cs + cs := by ring
      rw [hmul] at hk
      rw [chunkLoop_succ]
      by_cases hbr : n < min n (s + cs - 1) + 1
      · rw [if_pos hbr]
        simp only [List.length_cons, List.length_nil]
        have hx1 : 1 ≤ n + 1 - s := by omega
        have hx2 : n + 1 - s ≤ cs := by omega
        have hlo : 1 ≤ (n + 1 - s + cs - 1) / cs := by
          rw [Nat.le_div_iff_mul_le (show 0 < cs by omega), Nat.one_mul]
          omega
        have hhi : (n + 1 - s + cs - 1) / cs < 2 := by
          rw [Nat.div_lt_iff_lt_mul (show 0 < cs by omega)]
          omega
        unfold ceilDiv
        omega
      · rw [if_neg hbr]
        have he : min n (s + cs - 1) = s + cs - 1 := by omega
        simp only [List.length_cons]
        rw [he]
        have h1 : s + cs - 1 + 1 = s + cs := by omega
        rw [h1]
        have ihres := ih (s + cs) (by omega) (by omega)
        rw [ihres]
        unfold ceilDiv
        have h2 : n + 1 - s + cs - 1 = (n + 1 - (s + cs) + cs - 1) + cs := by omega
        rw [h2, Nat.add_div_right _ (show 0 < cs by omega)]

/-- C3 counterexample: for `n = 7`, `requested_chunks = 5` the loop
creates only 4 chunks (ranges `[1,2],[3,4],[5,6],[7,7]` with
`chunk_size = ceil(7/5) = 2`), not `min 5 7 = 5`: the early `break` fires
once the range is exhausted. -/
theorem start_job_chunk_count_counterexample :
    (start_job_chunks 7 5).length ≠ min 5 7 := by decide

/-- C3 amended: for every valid input (`1 ≤ n`,
`1 ≤ requested_chunks`) the number of chunks actually created by
`start_job` (its return value `len(subtasks)`) equals
`ceil(n / chunkSize)` with `chunkSize = ceil(n / min(chunkCount, n))`;
it is at least 1 and at most `min(chunkCount, n)`, but can be strictly
smaller than `min(chunkCount, n)`. -/
theorem start_job_chunk_count (n requested_chunks : Nat)
    (hn : 1 ≤ n) (hr : 1 ≤ requested_chunks) :
    (start_job_chunks n requested_chunks).length
        = ceilDiv n (ceilDiv n (total_chunks requested_chunks n))
    ∧ 1 ≤ (start_job_chunks n requested_chunks).length
    ∧ (start_job_chunks n requested_chunks).length ≤ min requested_chunks n := by
  have ht : 1 ≤ total_chunks requested_chunks n := le_max_left _ _
  have hcs : 1 ≤ ceilDiv n (total_chunks requested_chunks n) := one_le_ceilDiv n _ hn ht
  have hfuel : n + 1 ≤ 1 + (total_chunks requested_chunks n)
      * ceilDiv n (total_chunks requested_chunks n) := by
    have := le_mul_ceilDiv n (total_chunks requested_chunks n) ht
    omega
  have hlen := chunkLoop_length n _ hcs (total_chunks requested_chunks n) 1 hn hfuel
  have hn1 : n + 1 - 1 = n := by omega
  rw [start_job_chunks, hlen, hn1]
  refine ⟨rfl, one_le_ceilDiv n _ hn (by omega), ?_⟩
  have htot : total_chunks requested_chunks n = min requested_chunks n := by
    unfold total_chunks
    omega
  rw [← htot]
  have hnts : n ≤ (total_chunks requested_chunks n)
      * ceilDiv n (total_chunks requested_chunks n) := le_mul_ceilDiv n _ ht
  have hq : (n + ceilDiv n (total_chunks requested_chunks n) - 1)
      / ceilDiv n (total_chunks requested_chunks n) < total_chunks requested_chunks n + 1 := by
    rw [Nat.div_lt_iff_lt_mul (show 0 < ceilDiv n (total_chunks requested_chunks n) by omega)]
    have h4 : (total_chunks requested_chunks n + 1) * ceilDiv n (total_chunks requested_chunks n)
        = (total_chunks requested_chunks n) * ceilDiv n (total_chunks requested_chunks n)
          + ceilDiv n (total_chunks requested_chunks n) := by ring
    omega
  show (n + ceilDiv n (total_chunks requested_chunks n) - 1)
      / ceilDiv n (total_chunks requested_chunks n) ≤ total_chunks requested_chunks n
  omega

/-- C2 (aggregation correctness).  For every list of chunk results,
`finalize_job` returns the integer sum of the results, writes status
`completed`, progress `1.0`, `completed_chunks` equal to the stored
`total_chunks`, and stores the sum as the job's result. -/
theorem finalize_job_spec (results : List Int) (s : RedisJobState) (t : Int)
    (h : s.total_chunks = some t) :
    (finalize_job results s).1 = results.sum
    ∧ (finalize_job results s).2.status = "completed"
    ∧ (finalize_job results s).2.progress = "1.0"
    ∧ (finalize_job results s).2.completed_chunks = t
    ∧ (finalize_job results s).2.result = some results.sum := by
  simp [finalize_job, h]

/-- Witness for `finalize_job_spec` at the reference example `n = 10`,
`chunkCount = 3`: the chunk subtotals are `[10, 26, 19]`, the final
result is 55, with exactly 3 completed chunks and progress `1.0`. -/
theorem finalize_job_spec_witness :
    ((finalize_job (chunkResults 10 3) (start_job_state 10 3)).1 = (chunkResults 10 3).sum
      ∧ (finalize_job (chunkResults 10 3) (start_job_state 10 3)).2.status = "completed"
      ∧ (finalize_job (chunkResults 10 3) (start_job_state 10 3)).2.progress = "1.0"
      ∧ (finalize_job (chunkResults 10 3) (start_job_state 10 3)).2.completed_chunks = 3
      ∧ (finalize_job (chunkResults 10 3) (start_job_state 10 3)).2.result
          = some (chunkResults 10 3).sum)
    ∧ (chunkResults 10 3).sum = 55 :=
  ⟨finalize_job_spec (chunkResults 10 3) (start_job_state 10 3) 3 rfl, by decide⟩

/-- C4 (permanent chunk failure propagation).  If a chunk exhausts
its retry budget, or exceeds its execution deadline, `compute_chunk`
marks the job's status `failed` with a detail string identifying the
chunk and cause, and deletes the job's result key (`result := none`), so
no result is published for the job. -/
theorem compute_chunk_permanent_failure (chunk_index start endv retries : Nat)
    (msg : String) (s : RedisJobState) (h : maxRetries ≤ retries) :
    (compute_chunk chunk_index start endv retries (.failure msg) s
        = .jobFailed { s with
            status := "failed"
            detail := "Chunk " ++ toString (chunk_index + 1) ++ " failed after "
              ++ toString maxRetries ++ " retries: " ++ msg
            result := none })
    ∧ (compute_chunk chunk_index start endv retries .softTimeLimit s
        = .jobFailed { s with
            status := "failed"
            detail := "Chunk " ++ toString (chunk_index + 1)
              ++ " exceeded time limit (5 minutes)"
            result := none }) := by
  constructor
  · simp only [compute_chunk]
    rw [if_neg (show ¬ retries < maxRetries by omega)]
    rfl
  · rfl

/-- Witness for `compute_chunk_permanent_failure`: chunk 0 of a 3-chunk
job, retries exhausted with message "boom". -/
theorem compute_chunk_permanent_failure_witness :
    compute_chunk 0 1 4 2 (.failure "boom") (start_job_state 10 3)
      = .jobFailed { start_job_state 10 3 with
          status := "failed"
          detail := "Chunk " ++ toString (0 + 1) ++ " failed after "
            ++ toString maxRetries ++ " retries: " ++ "boom"
          result := none } :=
  (compute_chunk_permanent_failure 0 1 4 2 "boom" (start_job_state 10 3) (by decide)).1

theorem taskStep_completed_le {s t : RedisJobState} (h : TaskStep s t)
    (ht : t.status = "pending" ∨ t.status = "running") :
    s.completed_chunks ≤ t.completed_chunks := by
  cases h with
  | incr =>
      show s.completed_chunks ≤ s.completed_chunks + 1
      omega
  | setRunning p d => exact le_refl _
  | markFailed d => exact le_refl _
  | finalize results =>
      exfalso
      rcases ht with h1 | h1 <;> simp [finalize_job] at h1

/-- C7 (monotonicity of `completed_chunks`).  While a job's status
stays pending or running, the `completed_chunks` counter never
decreases: every mutation applied by `compute_chunk` or `finalize_job`
either increments it, leaves it unchanged, or — in the only write that
can lower it, `finalize_job`'s — simultaneously moves the status to the
terminal `completed`, so any two successive status reads that both see a
pending/running job observe non-decreasing `completed_chunks`. -/
theorem completed_chunks_monotone {s u : RedisJobState} (h : ActiveTrace s u) :
    s.completed_chunks ≤ u.completed_chunks := by
  induction h with
  | refl s => exact le_refl _
  | step hstep ht rest ih => exact le_trans (taskStep_completed_le hstep ht) ih

/-- Witness for `completed_chunks_monotone`: one completed chunk of a
fresh 3-chunk job. -/
theorem completed_chunks_monotone_witness :
    (start_job_state 10 3).completed_chunks ≤
      ({ start_job_state 10 3 with
          completed_chunks := (start_job_state 10 3).completed_chunks + 1 } :
        RedisJobState).completed_chunks :=
  completed_chunks_monotone
    (ActiveTrace.step (TaskStep.incr (start_job_state 10 3)) (Or.inl rfl)
      (ActiveTrace.refl _))

/-- C5 (idempotent submission).  If a prior job-creation response is
recorded for the deduplication key (within the 24-hour retention window,
modelled by membership in the idempotency store), a second valid
submission with the same key returns exactly that prior response — same
jobId, same fields — and leaves the entire Redis state unchanged: no new
job state of any kind is created. -/
theorem create_job_idempotent (maxN maxChunks n chunks : Int) (key newJobId : String)
    (st : ApiState) (prior : JobCreated)
    (hn1 : 0 < n) (hn2 : n ≤ maxN) (hc1 : 0 < chunks) (hc2 : chunks ≤ maxChunks)
    (hkey : lookupStore ("idempotency:" ++ key) st.idempotency = some prior) :
    create_job maxN maxChunks n chunks (some key) newJobId st = (.ok prior, st) := by
  unfold create_job
  rw [if_neg (show ¬(n ≤ 0 ∨ maxN < n) by omega),
      if_neg (show ¬(chunks ≤ 0 ∨ maxChunks < chunks) by omega)]
  simp [hkey]

/-- Witness for `create_job_idempotent`: replaying key `alpha` returns
the recorded response and leaves the state unchanged. -/
theorem create_job_idempotent_witness :
    create_job 1000000 100 10 3 (some "alpha") "job-2" storeWithPrior
      = (.ok priorResponse, storeWithPrior) :=
  create_job_idempotent 1000000 100 10 3 "alpha" "job-2" storeWithPrior priorResponse
    (by decide) (by decide) (by decide) (by decide) (by rfl)

/-- C6 (validation rejects before any state is created).  A
submission whose `n` or `chunks` is outside the configured bounds — for
the demo endpoint `[1, 10000]` and `[1, 8]`, for `create_job` the
configured `max_job_n` / `max_chunks` — raises a client-error
`HTTPException` and leaves the Redis state untouched: no job state of
any kind is created. -/
theorem submission_validation_rejects (n chunks maxN maxChunks : Int)
    (newJobId : String) (st : ApiState) :
    ((n ≤ 0 ∨ 10000 < n ∨ chunks ≤ 0 ∨ 8 < chunks) →
      ∃ msg, create_demo_job n chunks newJobId st = (.error msg, st))
    ∧ ((n ≤ 0 ∨ maxN < n ∨ chunks ≤ 0 ∨ maxChunks < chunks) →
      ∀ idemKey, ∃ msg, create_job maxN maxChunks n chunks idemKey newJobId st
        = (.error msg, st)) := by
  constructor
  · intro h
    by_cases h1 : n ≤ 0 ∨ 10000 < n
    · exact ⟨_, by unfold create_demo_job; rw [if_pos h1]⟩
    · have h2 : chunks ≤ 0 ∨ 8 < chunks := by omega
      exact ⟨_, by unfold create_demo_job; rw [if_neg h1, if_pos h2]⟩
  · intro h idemKey
    by_cases h1 : n ≤ 0 ∨ maxN < n
    · exact ⟨_, by unfold create_job; rw [if_pos h1]⟩
    · have h2 : chunks ≤ 0 ∨ maxChunks < chunks := by omega
      exact ⟨_, by unfold create_job; rw [if_neg h1, if_pos h2]⟩

/-- Witness for `submission_validation_rejects`: `n = 20000` against the
demo max of 10000 is rejected with no job state created. -/
theorem submission_validation_rejects_witness :
    ∃ msg, create_demo_job 20000 3 "job-3" { idempotency := [], progress := [] }
      = (.error msg, { idempotency := [], progress := [] }) :=
  (submission_validation_rejects 20000 3 1000000 100 "job-3"
    { idempotency := [], progress := [] }).1 (by omega)

/-- C10 counterexample: the claim's "however malformed" fails — with
the non-numeric `total_chunks = "many"` stored, the status query does
not return a well-formed response: `int(progress_raw.get("total_chunks",
1))` raises an uncaught `ValueError`. -/
theorem get_job_status_malformed_counterexample :
    get_job_status "job-x" (some rawBadTotal) none
      = .error "ValueError: invalid total_chunks" := by rfl

/-- C10 amended (robust status reporting).  For every stored
progress record whose `total_chunks` and `completed_chunks` fields (or
their defaults) and, when present, the stored result value parse as
integers, the job-status query returns a well-formed response: a stored
progress string that fails to parse as a number is reported as `0.0`,
the reported progress is clamped into `[0, 1]`, and the reported
`total_chunks` is at least 1 even when the stored value is zero,
negative, or missing.  (A non-numeric counter or result value instead
raises an uncaught conversion error — see the counterexample.) -/
theorem get_job_status_robust (job_id : String) (raw : RawProgressHash)
    (result_raw : Option String) (t c : Int)
    (ht : pyInt (raw.total_chunks.getD "1") = some t)
    (hc : pyInt (raw.completed_chunks.getD "0") = some c)
    (hr : result_raw = none ∨ ∃ r v, result_raw = some r ∧ pyInt r = some v) :
    ∃ resp, get_job_status job_id (some raw) result_raw = .ok resp
      ∧ 0 ≤ resp.progress ∧ resp.progress ≤ 1
      ∧ 1 ≤ resp.total_chunks
      ∧ (pyFloat (progressValueOf raw) = none → resp.progress = 0) := by
  have htot : (1 : Int) ≤ if 0 < t then t else 1 := by
    by_cases hp : 0 < t
    · rw [if_pos hp]; omega
    · rw [if_neg hp]
  have hprog0 : (0 : ℚ) ≤ min (max ((pyFloat (progressValueOf raw)).getD 0) 0) 1 :=
    le_min (le_max_right _ _) zero_le_one
  have hprog1 : min (max ((pyFloat (progressValueOf raw)).getD 0) 0) 1 ≤ 1 :=
    min_le_right _ _
  have hfail : pyFloat (progressValueOf raw) = none →
      min (max ((pyFloat (progressValueOf raw)).getD 0) 0) 1 = 0 := by
    intro hn
    rw [hn]
    simp
  rcases hr with hnone | ⟨r, v, hrsome, hrv⟩
  · subst hnone
    have heq : get_job_status job_id (some raw) none = .ok
        { job_id := job_id
          status := raw.status.getD "unknown"
          progress := min (max ((pyFloat (progressValueOf raw)).getD 0) 0) 1
          completed_chunks := c
          total_chunks := if 0 < t then t else 1
          result := none
          detail := raw.detail } := by
      simp only [get_job_status, ht, hc]
    exact ⟨_, heq, hprog0, hprog1, htot, hfail⟩
  · subst hrsome
    have heq : get_job_status job_id (some raw) (some r) = .ok
        { job_id := job_id
          status := raw.status.getD "unknown"
          progress := min (max ((pyFloat (progressValueOf raw)).getD 0) 0) 1
          completed_chunks := c
          total_chunks := if 0 < t then t else 1
          result := some v
          detail := raw.detail } := by
      simp only [get_job_status, ht, hc, hrv]
    exact ⟨_, heq, hprog0, hprog1, htot, hfail⟩

/-- Witness for `get_job_status_robust` on `rawOdd`: stored
`total_chunks` of zero is reported as 1, and the unparseable progress is
reported as 0, clamped into `[0, 1]`. -/
theorem get_job_status_robust_witness :
    ∃ resp, get_job_status "job-y" (some rawOdd) none = .ok resp
      ∧ 0 ≤ resp.progress ∧ resp.progress ≤ 1
      ∧ 1 ≤ resp.total_chunks
      ∧ (pyFloat (progressValueOf rawOdd) = none → resp.progress = 0) :=
  get_job_status_robust "job-y" rawOdd none 0 2 (by rfl) (by rfl) (Or.inl rfl)

/-- Unfolding lemma: an iteration that reads an empty hash breaks the
loop with no further event. -/
theorem event_generator_loop_read_none (obs : Nat → Option StatusUpdate)
    (fuel : Nat) (last : Option StatusUpdate) (iteration : Nat)
    (h : obs iteration = none) :
    event_generator_loop obs (fuel + 1) last iteration = [] := by
  simp only [event_generator_loop, h]

/-- Unfolding lemma: an iteration that reads state `u`. -/
theorem event_generator_loop_read_some (obs : Nat → Option StatusUpdate)
    (fuel : Nat) (last : Option StatusUpdate) (iteration : Nat) (u : StatusUpdate)
    (h : obs iteration = some u) :
    event_generator_loop obs (fuel + 1) last iteration =
      if isTerminal u.status then
        (if some u ≠ last then [SseEvent.status u] else []) ++ [SseEvent.done u.status]
      else
        (if some u ≠ last then [SseEvent.status u] else [])
          ++ event_generator_loop obs fuel (some u) (iteration + 1) := by
  simp only [event_generator_loop, h]

theorem statusPayloads_append (l1 l2 : List SseEvent) :
    statusPayloads (l1 ++ l2) = statusPayloads l1 ++ statusPayloads l2 := by
  simp [statusPayloads]

/-- The loop output depends only on the observations of the iterations
it can reach: the stream performs at most `fuel` polling reads. -/
theorem event_generator_loop_congr (obs obs2 : Nat → Option StatusUpdate) :
    ∀ (fuel iteration : Nat) (last : Option StatusUpdate),
      (∀ k, iteration ≤ k → k < iteration + fuel → obs k = obs2 k) →
      event_generator_loop obs fuel last iteration
        = event_generator_loop obs2 fuel last iteration := by
  intro fuel
  induction fuel with
  | zero => intro iteration last h; rfl
  | succ f ih =>
      intro iteration last h
      have h0 : obs iteration = obs2 iteration := h iteration (le_refl _) (by omega)
      cases h2 : obs2 iteration with
      | none =>
          rw [event_generator_loop_read_none obs f last iteration (by rw [h0, h2]),
              event_generator_loop_read_none obs2 f last iteration h2]
      | some u =>
          rw [event_generator_loop_read_some obs f last iteration u (by rw [h0, h2]),
              event_generator_loop_read_some obs2 f last iteration u h2]
          by_cases hterm : isTerminal u.status = true
          · rw [if_pos hterm, if_pos hterm]
          · rw [if_neg hterm, if_neg hterm,
              ih (iteration + 1) (some u) (fun k hk1 hk2 => h k (by omega) (by omega))]

/-- Consecutive `status` events always carry different payloads, and the
first one differs from the `last` state the loop starts with. -/
theorem event_generator_loop_chain (obs : Nat → Option StatusUpdate) :
    ∀ (fuel iteration : Nat) (last : Option StatusUpdate),
      List.Chain' (fun a b => a ≠ b)
        (statusPayloads (event_generator_loop obs fuel last iteration))
      ∧ (∀ u, (statusPayloads (event_generator_loop obs fuel last iteration)).head?
            = some u → some u ≠ last) := by
  intro fuel
  induction fuel with
  | zero =>
      intro iteration last
      constructor
      · simp [event_generator_loop, statusPayloads]
      · intro u hu
        simp [event_generator_loop, statusPayloads] at hu
  | succ f ih =>
      intro iteration last
      cases hobs : obs iteration with
      | none =>
          rw [event_generator_loop_read_none obs f last iteration hobs]
          constructor
          · simp [statusPayloads]
          · intro u hu
            simp [statusPayloads] at hu
      | some u =>
          rw [event_generator_loop_read_some obs f last iteration u hobs]
          by_cases hterm : isTerminal u.status = true
          · rw [if_pos hterm]
            by_cases hne : some u ≠ last
            · rw [if_pos hne]
              constructor
              · simp [statusPayloads]
              · intro w hw
                simp only [statusPayloads, List.filterMap] at hw
                simp at hw
                rw [← hw]
                exact hne
            · rw [if_neg hne]
              constructor
              · simp [statusPayloads]
              · intro w hw
                simp [statusPayloads] at hw
          · rw [if_neg hterm]
            have hrec := ih (iteration + 1) (some u)
            by_cases hne : some u ≠ last
            · rw [if_pos hne]
              rw [statusPayloads_append]
              have hsingle : statusPayloads [SseEvent.status u] = [u] := rfl
              rw [hsingle, List.singleton_append]
              constructor
              · rw [List.chain'_cons']
                constructor
                · intro w hw
                  have hne2 := hrec.2 w hw
                  intro huw
                  exact hne2 (by rw [huw])
                · exact hrec.1
              · intro w hw
                rw [List.head?_cons] at hw
                cases hw
                exact hne
            · rw [if_neg hne]
              have hlast : some u = last := by
                by_contra hx
                exact hne hx
              rw [statusPayloads_append]
              have hempty : statusPayloads ([] : List SseEvent) = [] := rfl
              rw [hempty, List.nil_append]
              constructor
              · exact hrec.1
              · intro w hw
                rw [← hlast]
                exact hrec.2 w hw

/-- If some reachable iteration observes a terminal status, and the
stored state is present at every earlier reachable iteration, the stream
ends with a `done` event carrying a terminal status. -/
theorem event_generator_loop_done (obs : Nat → Option StatusUpdate) :
    ∀ (fuel iteration : Nat) (last : Option StatusUpdate) (j : Nat),
      iteration ≤ j → j < iteration + fuel →
      (∀ k, iteration ≤ k → k < j → obs k ≠ none) →
      (∃ u, obs j = some u ∧ isTerminal u.status = true) →
      ∃ l s, event_generator_loop obs fuel last iteration = l ++ [SseEvent.done s]
        ∧ isTerminal s = true := by
  intro fuel
  induction fuel with
  | zero =>
      intro iteration last j hj1 hj2 hpres hterm
      exfalso
      omega
  | succ f ih =>
      intro iteration last j hj1 hj2 hpres ⟨u, hu, hut⟩
      cases hobs : obs iteration with
      | none =>
          exfalso
          rcases Nat.eq_or_lt_of_le hj1 with heq | hlt
          · rw [← heq] at hu
            rw [hobs] at hu
            cases hu
          · exact hpres iteration (le_refl _) hlt hobs
      | some w =>
          rw [event_generator_loop_read_some obs f last iteration w hobs]
          by_cases hterm : isTerminal w.status = true
          · rw [if_pos hterm]
            exact ⟨if some w ≠ last then [SseEvent.status w] else [],
              w.status, rfl, hterm⟩
          · rw [if_neg hterm]
            have hji : iteration ≠ j := by
              intro hx
              rw [← hx, hobs] at hu
              cases hu
              exact hterm hut
            have hrec := ih (iteration + 1) (some w) j (by omega) (by omega)
              (fun k hk1 hk2 => hpres k (by omega) hk2) ⟨u, hu, hut⟩
            rcases hrec with ⟨l, s, hl, hst⟩
            refine ⟨(if some w ≠ last then [SseEvent.status w] else []) ++ l, s, ?_, hst⟩
            rw [hl, List.append_assoc]

/-- If the stored state is present and non-terminal at every reachable
iteration, the stream ends with the timeout event. -/
theorem event_generator_loop_timeout (obs : Nat → Option StatusUpdate) :
    ∀ (fuel iteration : Nat) (last : Option StatusUpdate),
      (∀ k, iteration ≤ k → k < iteration + fuel →
        ∃ u, obs k = some u ∧ isTerminal u.status = false) →
      ∃ l, event_generator_loop obs fuel last iteration = l ++ [SseEvent.timeout] := by
  intro fuel
  induction fuel with
  | zero =>
      intro iteration last h
      exact ⟨[], rfl⟩
  | succ f ih =>
      intro iteration last h
      rcases h iteration (le_refl _) (by omega) with ⟨u, hu, hut⟩
      rw [event_generator_loop_read_some obs f last iteration u hu,
        if_neg (show ¬ isTerminal u.status = true by simp [hut])]
      rcases ih (iteration + 1) (some u) (fun k hk1 hk2 => h k (by omega) (by omega))
        with ⟨l, hl⟩
      rw [hl]
      exact ⟨(if some u ≠ last then [SseEvent.status u] else []) ++ l,
        by rw [List.append_assoc]⟩

/-- C9 amended (pull-based event stream).  For every job stream:
the output depends only on the first 300 polled observations (at most
300 polling iterations are performed); a status event is emitted on an
iteration only if the observed state differs from the last emitted
state (consecutive status events always differ); whenever a terminal
status (`completed`, `failed` or `cancelled`) is observed — with the
stored state present until then — the stream terminates with a distinct
`done` event; and whenever the stored state stays present and
non-terminal through all 300 iterations, a distinct `timeout` event is
emitted.  (If the stored state disappears mid-stream the loop instead
ends silently — see the counterexample.) -/
theorem stream_job_events_spec (obs : Nat → Option StatusUpdate) :
    (∀ obs2, (∀ k, k < maxIterations → obs k = obs2 k) →
        event_generator true obs = event_generator true obs2)
    ∧ List.Chain' (fun a b => a ≠ b) (statusPayloads (event_generator true obs))
    ∧ (∀ j, j < maxIterations → (∀ k, k < j → obs k ≠ none) →
        (∃ u, obs j = some u ∧ isTerminal u.status = true) →
        ∃ l s, event_generator true obs = l ++ [SseEvent.done s] ∧ isTerminal s = true)
    ∧ ((∀ k, k < maxIterations → ∃ u, obs k = some u ∧ isTerminal u.status = false) →
        ∃ l, event_generator true obs = l ++ [SseEvent.timeout]) := by
  refine ⟨?_, ?_, ?_, ?_⟩
  · intro obs2 h
    show event_generator_loop obs maxIterations none 0
      = event_generator_loop obs2 maxIterations none 0
    exact event_generator_loop_congr obs obs2 maxIterations 0 none
      (fun k hk1 hk2 => h k (by omega))
  · exact (event_generator_loop_chain obs maxIterations 0 none).1
  · intro j hj hpres hterm
    exact event_generator_loop_done obs maxIterations 0 none j (Nat.zero_le j)
      (by omega) (fun k hk1 hk2 => hpres k hk2) hterm
  · intro h
    exact event_generator_loop_timeout obs maxIterations 0 none
      (fun k hk1 hk2 => h k (by omega))

/-- C9 counterexample: the claim's timeout clause fails when the
stored job state disappears: with `vanishedObs` the job never reaches a
terminal status within the 300 iterations, yet the stream emits no
events at all — in particular no timeout event (`if not progress_raw:
break` exits the loop with `iteration < max_iterations`). -/
theorem stream_job_events_counterexample :
    event_generator true vanishedObs = []
    ∧ SseEvent.timeout ∉ event_generator true vanishedObs := by
  have h : event_generator true vanishedObs = [] := rfl
  exact ⟨h, by rw [h]; simp⟩

/-- Witness for `stream_job_events_spec`: a stream that observes a
completed job ends with a `done` event, and a stream that only ever
observes a running job ends with the timeout event. -/
theorem stream_job_events_spec_witness :
    (∃ l s, event_generator true doneObs = l ++ [SseEvent.done s]
      ∧ isTerminal s = true)
    ∧ (∃ l, event_generator true pendingObs = l ++ [SseEvent.timeout]) :=
  ⟨(stream_job_events_spec doneObs).2.2.1 0 (by decide)
      (fun k hk => absurd hk (Nat.not_lt_zero k))
      ⟨_, rfl, by rfl⟩,
    (stream_job_events_spec pendingObs).2.2.2
      (fun k hk => ⟨_, rfl, by rfl⟩)⟩

/-- C8 (token-bucket rate limiting).  For a fresh bucket with
capacity 5 and a 60-second window: 5 consecutive `consume(1)` calls with
no elapsed time all succeed; the 6th is rejected;
`time_until_available(1)` then reports a strictly positive duration
equal to `(1 - tokens) / refill_rate` (namely 12 seconds); and once that
duration has elapsed the next `consume(1)` succeeds. -/
theorem token_bucket_demo :
    (consumeSeq 0 5 demoBucket).1 = [true, true, true, true, true]
    ∧ (((consumeSeq 0 5 demoBucket).2).consume 0 1).1 = false
    ∧ (let b6 := (((consumeSeq 0 5 demoBucket).2).consume 0 1).2
       let w := (b6.time_until_available 0 1).1
       0 < w
       ∧ w = (1 - b6.tokens) / b6.refill_rate
       ∧ w = 12
       ∧ (((b6.time_until_available 0 1).2).consume (0 + w) 1).1 = true) := by
  norm_num [consumeSeq, TokenBucket.consume, TokenBucket.refill,
    TokenBucket.time_until_available, demoBucket, min_def]

/-- Witness for `start_job_chunk_count` at `n = 7`,
`requested_chunks = 5`: the chunk count formula holds there (4 chunks
are created, within `[1, min 5 7]`). -/
theorem start_job_chunk_count_witness :
    (start_job_chunks 7 5).length = ceilDiv 7 (ceilDiv 7 (total_chunks 5 7))
    ∧ 1 ≤ (start_job_chunks 7 5).length
    ∧ (start_job_chunks 7 5).length ≤ min 5 7 :=
  start_job_chunk_count 7 5 (by decide) (by decide)

end DistComp
